import Mathlib

/-!
# IntArray (Section 3/main.cpp): bounds-checked, heap-owning integer array

Shallow embedding of the C++ class `IntArray`, of `operator<<` and of the part of
`main` that the end-to-end scenario describes.

Memory model.  The free store is a list of blocks; the address of a block is its
position in the list.  `new int[n]` appends a block (so a fresh address is never
one that is in use), `delete[]` marks a block as released.  A cell of a block is
`some v` once it holds the value `v` and `none` while its value is indeterminate
(`new int[n]` without an initialiser).  Whatever the C++ standard leaves undefined
(access through a released or null pointer, outside a block, reading an
indeterminate value, releasing a block twice) is the fault `UndefinedBehaviour`.
Memory exhaustion is not modelled.  `int` is modelled by `Int`; no arithmetic of
the class can overflow (`i + 1` with `i < m_size`, `Size() - 1` with `Size() > 0`).
-/

namespace IntArraySpec

/-- Ways in which an operation can fail to produce a result. -/
inductive Fault where
  /-- The exception `IndexOutOfBoundsException` thrown by both `operator[]`. -/
  | IndexOutOfBounds
  /-- The exception `std::bad_array_new_length` of `new int[n]` with `n < 0`. -/
  | BadArrayNewLength
  /-- The operation has undefined behaviour in C++. -/
  | UndefinedBehaviour
  /-- A loop of the model was given too few iterations (never the case, see the lemmas). -/
  | OutOfFuel
  deriving DecidableEq, Repr

/-- The text returned by `IndexOutOfBoundsException::what()`. -/
def IndexOutOfBoundsException.what : String := "Index out of bounds."

/-- A block of `int` cells; `none` is a cell with an indeterminate value. -/
abbrev Block := List (Option Int)

/-- The free store: the block at each address, `none` once it has been released. -/
abbrev Heap := List (Option Block)

/-- An lvalue of type `int`: the cell `off` of the block at `addr`. -/
structure Ref where
  addr : Nat
  off : Nat
  deriving DecidableEq, Repr

/-- The data members of `IntArray`, with their default member initialisers
`m_ptr{nullptr}` and `m_size{0}`. -/
structure IntArray where
  m_ptr : Option Nat := none
  m_size : Int := 0
  deriving DecidableEq, Repr

/-- `new int[n]{}`: a fresh block of `n` cells holding zero. -/
def Heap.newZeroed (h : Heap) (n : Int) : Except Fault (Nat × Heap) :=
  if n < 0 then .error .BadArrayNewLength
  else .ok (h.length, h ++ [some (List.replicate n.toNat (some 0))])

/-- `new int[n]`: a fresh block of `n` cells with indeterminate values. -/
def Heap.newUninit (h : Heap) (n : Int) : Except Fault (Nat × Heap) :=
  if n < 0 then .error .BadArrayNewLength
  else .ok (h.length, h ++ [some (List.replicate n.toNat none)])

/-- `delete[] p`: nothing for the null pointer, releases a live block, and is
undefined for any other pointer. -/
def Heap.deleteArray (h : Heap) : Option Nat → Except Fault Heap
  | none => .ok h
  | some p =>
    match h[p]? with
    | some (some _) => .ok (h.set p none)
    | _ => .error .UndefinedBehaviour

/-- The lvalue `p[index]`: defined when `p` points to a live block that has a cell
number `index`. -/
def Heap.lvalue (h : Heap) (p : Option Nat) (index : Int) : Except Fault Ref :=
  match p with
  | none => .error .UndefinedBehaviour
  | some addr =>
    match h[addr]? with
    | some (some blk) =>
      if 0 ≤ index ∧ index < (blk.length : Int) then .ok ⟨addr, index.toNat⟩
      else .error .UndefinedBehaviour
    | _ => .error .UndefinedBehaviour

/-- Reading an lvalue. -/
def Heap.load (h : Heap) (r : Ref) : Except Fault Int :=
  match h[r.addr]? with
  | some (some blk) =>
    match blk[r.off]? with
    | some (some v) => .ok v
    | _ => .error .UndefinedBehaviour
  | _ => .error .UndefinedBehaviour

/-- Assigning `v` to an lvalue. -/
def Heap.store (h : Heap) (r : Ref) (v : Int) : Except Fault Heap :=
  match h[r.addr]? with
  | some (some blk) =>
    if r.off < blk.length then .ok (h.set r.addr (some (blk.set r.off (some v))))
    else .error .UndefinedBehaviour
  | _ => .error .UndefinedBehaviour

namespace IntArray

/-- `IntArray() = default`. -/
def ctorDefault : IntArray := {}

/-- `explicit IntArray(int size)`. -/
def ctorSized (h : Heap) (size : Int) : Except Fault (Heap × IntArray) :=
  if size ≠ 0 then do
    let (p, h1) ← h.newZeroed size
    .ok (h1, { m_ptr := some p, m_size := size })
  else .ok (h, {})

/-- `int Size() const`. -/
def Size (a : IntArray) : Int := a.m_size

/-- `bool IsEmpty() const`. -/
def IsEmpty (a : IntArray) : Bool := a.m_size == 0

/-- `bool IsValidIndex(int index) const`. -/
def IsValidIndex (a : IntArray) (index : Int) : Bool :=
  decide (index ≥ 0) && decide (index < a.m_size)

/-- `int& operator[](int index)`: the mutable accessor. -/
def subscript (a : IntArray) (h : Heap) (index : Int) : Except Fault Ref :=
  if !a.IsValidIndex index then .error .IndexOutOfBounds
  else h.lvalue a.m_ptr index

/-- `int operator[](int index) const`: the read-only accessor. -/
def subscriptConst (a : IntArray) (h : Heap) (index : Int) : Except Fault Int :=
  if !a.IsValidIndex index then .error .IndexOutOfBounds
  else do
    let r ← h.lvalue a.m_ptr index
    h.load r

/-- The statement `a[index] = v;` (mutable accessor, then assignment through the
reference it returns). -/
def writeAt (a : IntArray) (h : Heap) (index v : Int) : Except Fault Heap := do
  let r ← a.subscript h index
  h.store r v

end IntArray

/-- The objects of a program, by name, and the free store. -/
structure Machine where
  heap : Heap
  objs : Nat → IntArray

/-- The loop `for (int i = 0; i < m_size; i++) m_ptr[i] = source.m_ptr[i];` from
the iteration with index `i` on. -/
def copyLoop (dst src : Option Nat) (m_size : Int) : Nat → Int → Heap → Except Fault Heap
  | 0, i, h => if i < m_size then .error .OutOfFuel else .ok h
  | fuel + 1, i, h =>
    if i < m_size then do
      let rs ← h.lvalue src i
      let v ← h.load rs
      let rd ← h.lvalue dst i
      let h1 ← h.store rd v
      copyLoop dst src m_size fuel (i + 1) h1
    else .ok h

/-- `IntArray& operator=(const IntArray& source)` called on the object named
`this`, with the object named `source` as argument. -/
def assign (m : Machine) (this source : Nat) : Except Fault Machine :=
  if this = source then .ok m
  else do
    let h1 ← m.heap.deleteArray (m.objs this).m_ptr
    if !(m.objs source).IsEmpty then
      let m_size := (m.objs source).m_size
      let (p, h2) ← h1.newUninit m_size
      let h3 ← copyLoop (some p) (m.objs source).m_ptr m_size m_size.toNat 0 h2
      .ok { heap := h3, objs := Function.update m.objs this { m_ptr := some p, m_size := m_size } }
    else .ok { heap := h1, objs := m.objs }

/-- The text `os << v` writes for an `int`. -/
def showInt : Int → String
  | Int.ofNat n => Nat.repr n
  | Int.negSucc n => "-" ++ Nat.repr (n + 1)

/-- The loop of `operator<<` from the iteration with index `i` on; `os` is the
text written so far. -/
def renderLoop (a : IntArray) (h : Heap) : Nat → Int → String → Except Fault String
  | 0, i, os => if i < a.Size then .error .OutOfFuel else .ok os
  | fuel + 1, i, os =>
    if i < a.Size then do
      let v ← a.subscriptConst h i
      let os1 := os ++ showInt v
      let os2 := if i < a.Size - 1 then os1 ++ ", " else os1
      renderLoop a h fuel (i + 1) os2
    else .ok os

/-- `std::ostream& operator<<(std::ostream& os, const IntArray& a)`: the text of
the stream afterwards. -/
def render (os : String) (a : IntArray) (h : Heap) : Except Fault String := do
  let os1 ← renderLoop a h a.Size.toNat 0 (os ++ "[")
  .ok (os1 ++ "]\n")

/-- The representation invariant of the class, with the abstract value: the array
`a` holds the elements `es`.  An empty array has the null pointer and size zero; any
other array points to a live block of exactly `m_size` cells, all holding a value. -/
def Holds (a : IntArray) (h : Heap) (es : List Int) : Prop :=
  (es.length : Int) = a.m_size ∧
  match a.m_ptr with
  | none => es = []
  | some p => es ≠ [] ∧ h[p]? = some (some (es.map some))

/-- A machine whose objects are those of the list `l`, named by their position;
every other name is a default-constructed array. -/
def Machine.ofList (h : Heap) (l : List IntArray) : Machine :=
  ⟨h, fun n => l.getD n {}⟩

/-- The loop `for (int i = 0; i < 11; i++) { c[i] = i * 10; }` of `main`, from the
iteration with index `i` on. -/
def fillLoop (c : IntArray) : Nat → Int → Heap → Except Fault Heap
  | 0, i, h => if i < 11 then .error .OutOfFuel else .ok h
  | fuel + 1, i, h =>
    if i < 11 then do
      let h1 ← c.writeAt h i (i * 10)
      fillLoop c fuel (i + 1) h1
    else .ok h

/-- What the end-to-end scenario observes. -/
structure ScenarioTrace where
  /-- The text of `cout << c;` once `c` is filled. -/
  filled : String
  /-- The text of `cout << c;` after `d = c; d[5] = 999;`. -/
  original : String
  /-- The text of `cout << d;` after `d = c; d[5] = 999;`. -/
  copy : String
  /-- Reading `c[12]` and `d[12]` through the read-only accessor. -/
  readC : Except Fault Int
  readD : Except Fault Int
  /-- Evaluating `c[12]` and `d[12]` through the mutable accessor. -/
  refC : Except Fault Ref
  refD : Except Fault Ref

/-- The demonstration of `main` from `IntArray c{11};` on (the object `c` has the
name 0 and `d` the name 1), followed by the accesses at index 12. -/
def scenario : Except Fault ScenarioTrace := do
  let (h0, c) ← IntArray.ctorSized [] 11
  let h1 ← fillLoop c 11 0 h0
  let filled ← render "" c h1
  let (h2, d) ← IntArray.ctorSized h1 11
  let m ← assign (Machine.ofList h2 [c, d]) 1 0
  let h3 ← (m.objs 1).writeAt m.heap 5 999
  let original ← render "" (m.objs 0) h3
  let copy ← render "" (m.objs 1) h3
  .ok { filled := filled, original := original, copy := copy,
        readC := (m.objs 0).subscriptConst h3 12, readD := (m.objs 1).subscriptConst h3 12,
        refC := (m.objs 0).subscript h3 12, refD := (m.objs 1).subscript h3 12 }

/-- The destination block of the copy loop once the cells below `k` are written. -/
def copiedUpTo (es : List Int) (k : Nat) : Block :=
  (es.take k).map some ++ List.replicate (es.length - k) none

/-- A three-element array holding 10, 20, 30, and the free store it lives in. -/
def sampleArray : IntArray := ⟨some 0, 3⟩

/-- The free store of `sampleArray`. -/
def sampleHeap : Heap := [some [some 10, some 20, some 30]]

/-- The description carried by a failure value: `what()` of the exception thrown by
the accessors.  The other faults are not exceptions of this program and have no
description here. -/
def Fault.what : Fault → Option String
  | .IndexOutOfBounds => some IndexOutOfBoundsException.what
  | _ => none

/-- The handler `catch (const IndexOutOfBoundsException& e)` of `main`: the text it
prints, and nothing for a fault that it does not catch. -/
def catchBlock : Fault → Option String
  | .IndexOutOfBounds => some ("Exception: " ++ IndexOutOfBoundsException.what ++ "\n")
  | _ => none

/-- Evaluating `a[index]` on a `const` array named `a`: the outcome, and the machine in
which the program goes on.  The accessor writes nothing, whether it returns or throws. -/
def Machine.readStmt (m : Machine) (a : Nat) (index : Int) : Except Fault Int × Machine :=
  ((m.objs a).subscriptConst m.heap index, m)

/-- The statement `a[index] = v;` on the array named `a`: the outcome, and the machine in
which the program goes on.  The only write is the store through the reference, so an
exception leaves the machine as it was when the statement began. -/
def Machine.writeStmt (m : Machine) (a : Nat) (index v : Int) : Except Fault Unit × Machine :=
  match (m.objs a).writeAt m.heap index v with
  | .ok h1 => (.ok (), { m with heap := h1 })
  | .error e => (.error e, m)

/-- The statement `os << a;` on the array named `a` and an empty stream: the text, and
the machine in which the program goes on (`operator<<` takes the array by `const`
reference and only reads it). -/
def Machine.renderStmt (m : Machine) (a : Nat) : Except Fault String × Machine :=
  (render "" (m.objs a) m.heap, m)

/-- Two arrays in one free store: a two-element array holding 1, 2 with the name 0 and
the array 10, 20, 30 with the name 1. -/
def twoArrays : Machine :=
  Machine.ofList [some [some 10, some 20, some 30], some [some 1, some 2]]
    [⟨some 1, 2⟩, sampleArray]

/-! ## Lemmas on the accessors and on rendering -/

open IntArray

theorem holds_storage {a : IntArray} {h : Heap} {es : List Int} (hh : Holds a h es)
    {i : Int} (h0 : 0 ≤ i) (h1 : i < a.m_size) :
    ∃ p, a.m_ptr = some p ∧ h[p]? = some (some (es.map some)) ∧ i.toNat < es.length := by
  obtain ⟨hlen, hp⟩ := hh
  cases hptr : a.m_ptr with
  | none =>
    rw [hptr] at hp
    simp only at hp
    subst hp
    simp at hlen
    omega
  | some p =>
    rw [hptr] at hp
    exact ⟨p, rfl, hp.2, by omega⟩

theorem isValidIndex_iff (a : IntArray) (i : Int) :
    a.IsValidIndex i = true ↔ 0 ≤ i ∧ i < a.Size := by
  simp [IsValidIndex, Size]

theorem lvalue_holds {a : IntArray} {h : Heap} {es : List Int} (hh : Holds a h es)
    {i : Int} (h0 : 0 ≤ i) (h1 : i < a.m_size) :
    ∃ p, a.m_ptr = some p ∧ h[p]? = some (some (es.map some)) ∧ i.toNat < es.length ∧
      h.lvalue a.m_ptr i = .ok ⟨p, i.toNat⟩ := by
  obtain ⟨p, hp, hblk, hlt⟩ := holds_storage hh h0 h1
  refine ⟨p, hp, hblk, hlt, ?_⟩
  have hlen := hh.1
  simp only [Heap.lvalue, hp, hblk, List.length_map]
  rw [if_pos ⟨h0, by omega⟩]

theorem subscriptConst_holds {a : IntArray} {h : Heap} {es : List Int} (hh : Holds a h es)
    {i : Int} (h0 : 0 ≤ i) (h1 : i < a.m_size) :
    ∃ v, es[i.toNat]? = some v ∧ a.subscriptConst h i = .ok v := by
  obtain ⟨p, hp, hblk, hlt, hlv⟩ := lvalue_holds hh h0 h1
  refine ⟨es[i.toNat], List.getElem?_eq_getElem hlt, ?_⟩
  have hv : a.IsValidIndex i = true := (isValidIndex_iff a i).2 ⟨h0, h1⟩
  simp [subscriptConst, hv, hlv, Heap.load, hblk, hlt, bind, Except.bind]

theorem writeAt_holds {a : IntArray} {h : Heap} {es : List Int} (hh : Holds a h es)
    {i : Int} (h0 : 0 ≤ i) (h1 : i < a.m_size) (v : Int) :
    ∃ p, a.m_ptr = some p ∧
      a.writeAt h i v = .ok (h.set p (some ((es.set i.toNat v).map some))) ∧
      Holds a (h.set p (some ((es.set i.toNat v).map some))) (es.set i.toNat v) := by
  obtain ⟨p, hp, hblk, hlt, hlv⟩ := lvalue_holds hh h0 h1
  have hv : a.IsValidIndex i = true := (isValidIndex_iff a i).2 ⟨h0, h1⟩
  have hplt : p < h.length := by
    rcases Nat.lt_or_ge p h.length with hlt2 | hge
    · exact hlt2
    · rw [List.getElem?_eq_none hge] at hblk
      cases hblk
  refine ⟨p, hp, ?_, ?_⟩
  · simp [writeAt, subscript, hv, hlv, Heap.store, hblk, hlt, bind, Except.bind, List.map_set]
  · refine ⟨by simpa using hh.1, ?_⟩
    rw [hp]
    refine ⟨?_, ?_⟩
    · intro hnil
      have hl := congrArg List.length hnil
      simp only [List.length_set, List.length_nil] at hl
      omega
    · simp [hplt]

theorem intercalate_go_append (s x : String) (l : List String) (acc : String) :
    String.intercalate.go (x ++ acc) s l = x ++ String.intercalate.go acc s l := by
  induction l generalizing acc with
  | nil => rfl
  | cons y r ih =>
    simp only [String.intercalate.go]
    rw [String.append_assoc, String.append_assoc, ih, String.append_assoc]

theorem intercalate_cons_cons (s x y : String) (r : List String) :
    s.intercalate (x :: y :: r) = x ++ s ++ s.intercalate (y :: r) := by
  simp only [String.intercalate, String.intercalate.go]
  rw [intercalate_go_append]

theorem renderLoop_holds {a : IntArray} {h : Heap} {es : List Int} (hh : Holds a h es) :
    ∀ (fuel : Nat) (i : Int) (os : String), 0 ≤ i → i + fuel = a.m_size →
      renderLoop a h fuel i os =
        .ok (os ++ ", ".intercalate ((es.drop i.toNat).map showInt)) := by
  intro fuel
  induction fuel with
  | zero =>
    intro i os h0 hi
    have hlen := hh.1
    have hd : es.drop i.toNat = [] := List.drop_eq_nil_of_le (by omega)
    have hn : ¬ i < a.Size := by simp only [Size]; omega
    simp [renderLoop, hn, hd, String.intercalate]
  | succ fuel ih =>
    intro i os h0 hi
    have hlen := hh.1
    have h1 : i < a.m_size := by omega
    obtain ⟨v, hv, hget⟩ := subscriptConst_holds hh h0 h1
    have hlt : i.toNat < es.length := by omega
    have hv2 : es[i.toNat] = v := by
      rw [List.getElem?_eq_getElem hlt] at hv
      exact Option.some.inj hv
    have hd : es.drop i.toNat = v :: es.drop (i + 1).toNat := by
      rw [← hv2, show (i + 1).toNat = i.toNat + 1 by omega]
      exact List.drop_eq_getElem_cons hlt
    have hlt2 : i < a.Size := h1
    simp only [renderLoop, hlt2, if_true, hget, bind, Except.bind]
    rw [ih (i + 1) _ (by omega) (by push_cast at hi ⊢; omega), hd]
    by_cases hlast : i < a.Size - 1
    · have hlt3 : (i + 1).toNat < es.length := by simp only [Size] at hlast; omega
      have hd2 : es.drop (i + 1).toNat = es[(i + 1).toNat] :: es.drop ((i + 1).toNat + 1) :=
        List.drop_eq_getElem_cons hlt3
      rw [if_pos hlast, hd2]
      simp only [List.map_cons]
      rw [intercalate_cons_cons]
      simp only [String.append_assoc]
    · have hd2 : es.drop (i + 1).toNat = [] :=
        List.drop_eq_nil_of_le (by simp only [Size] at hlast; omega)
      rw [if_neg hlast, hd2]
      simp [String.intercalate, String.intercalate.go]

theorem render_holds {a : IntArray} {h : Heap} {es : List Int} (hh : Holds a h es)
    (os : String) :
    render os a h = .ok (os ++ "[" ++ ", ".intercalate (es.map showInt) ++ "]\n") := by
  have hlen := hh.1
  have := renderLoop_holds hh a.Size.toNat 0 (os ++ "[") (le_refl 0)
    (by simp only [Size]; omega)
  simp only [render, this, bind, Except.bind]
  simp

theorem lvalue_ne_indexOutOfBounds (h : Heap) (p : Option Nat) (i : Int) :
    h.lvalue p i ≠ .error .IndexOutOfBounds := by
  unfold Heap.lvalue
  split
  · simp
  · split
    · split <;> simp
    · simp

theorem load_ne_indexOutOfBounds (h : Heap) (r : Ref) :
    h.load r ≠ .error .IndexOutOfBounds := by
  unfold Heap.load
  split
  · split <;> simp
  · simp

theorem subscript_indexOutOfBounds_iff (a : IntArray) (h : Heap) (i : Int) :
    a.subscript h i = .error .IndexOutOfBounds ↔ a.IsValidIndex i = false := by
  cases hv : a.IsValidIndex i with
  | false => simp [subscript, hv]
  | true => simpa [subscript, hv] using lvalue_ne_indexOutOfBounds h a.m_ptr i

theorem subscriptConst_indexOutOfBounds_iff (a : IntArray) (h : Heap) (i : Int) :
    a.subscriptConst h i = .error .IndexOutOfBounds ↔ a.IsValidIndex i = false := by
  cases hv : a.IsValidIndex i with
  | false => simp [subscriptConst, hv]
  | true =>
    have hl := lvalue_ne_indexOutOfBounds h a.m_ptr i
    simp only [subscriptConst, hv, Bool.not_true, Bool.false_eq_true, if_false, bind, Except.bind,
      iff_false]
    cases hlv : h.lvalue a.m_ptr i with
    | error e =>
      rw [hlv] at hl
      simpa using hl
    | ok r => simpa using load_ne_indexOutOfBounds h r

theorem ctorSized_pos (h : Heap) {n : Int} (hn : 0 < n) :
    ctorSized h n = .ok (h ++ [some (List.replicate n.toNat (some 0))], ⟨some h.length, n⟩) ∧
      Holds ⟨some h.length, n⟩ (h ++ [some (List.replicate n.toNat (some 0))])
        (List.replicate n.toNat 0) := by
  refine ⟨?_, ?_, ?_, ?_⟩
  · have h1 : n ≠ 0 := by omega
    have h2 : ¬ n < 0 := by omega
    simp [ctorSized, Heap.newZeroed, h1, h2, bind, Except.bind]
  · simp only [List.length_replicate]
    omega
  · intro hnil
    have hl := congrArg List.length hnil
    simp only [List.length_replicate, List.length_nil] at hl
    omega
  · simp

/-! ## Lemmas on `operator=` -/

theorem deleteArray_holds {a : IntArray} {h : Heap} {ds : List Int} (hd : Holds a h ds) :
    ∃ h1, h.deleteArray a.m_ptr = .ok h1 ∧ h1.length = h.length ∧
      ∀ q, a.m_ptr ≠ some q → h1[q]? = h[q]? := by
  obtain ⟨_, hp⟩ := hd
  cases hptr : a.m_ptr with
  | none => exact ⟨h, rfl, rfl, fun _ _ => rfl⟩
  | some p =>
    rw [hptr] at hp
    refine ⟨h.set p none, ?_, by simp, ?_⟩
    · simp [Heap.deleteArray, hp.2]
    · intro q hq
      have hpq : p ≠ q := fun e => hq (by rw [e])
      simp [List.getElem?_set, hpq]

theorem copiedUpTo_length (es : List Int) (k : Nat) (hk : k ≤ es.length) :
    (copiedUpTo es k).length = es.length := by
  simp [copiedUpTo, List.length_take]
  omega

theorem copiedUpTo_set (es : List Int) (k : Nat) (hk : k < es.length) :
    (copiedUpTo es k).set k (some es[k]) = copiedUpTo es (k + 1) := by
  apply List.ext_getElem?
  intro j
  simp only [copiedUpTo, List.getElem?_set, List.getElem?_append, List.length_map,
    List.length_take, List.getElem?_map, List.getElem?_take, List.getElem?_replicate,
    List.length_append, List.length_replicate]
  have hmin : min k es.length = k := by omega
  have hmin2 : min (k + 1) es.length = k + 1 := by omega
  rw [hmin, hmin2]
  by_cases h1 : j < k
  · have h2 : k ≠ j := by omega
    have h3 : j < k + 1 := by omega
    simp [h1, h2, h3]
  · by_cases h2 : k = j
    · subst h2
      have h4 : k + (es.length - k) = es.length := by omega
      simp [hk, h4, List.getElem?_eq_getElem hk]
    · have h3 : ¬ j < k + 1 := by omega
      simp only [h1, h2, h3, if_false]
      by_cases h5 : j < es.length
      · rw [if_pos (by omega), if_pos (by omega)]
      · rw [if_neg (by omega), if_neg (by omega)]

theorem getElem?_lt_length {α : Type} {l : List α} {p : Nat} {x : α} (hx : l[p]? = some x) :
    p < l.length := by
  rcases Nat.lt_or_ge p l.length with hlt | hge
  · exact hlt
  · rw [List.getElem?_eq_none hge] at hx
    cases hx

theorem copyLoop_spec (h1 : Heap) (ps : Nat) (es : List Int)
    (hsrc : h1[ps]? = some (some (es.map some))) :
    ∀ (fuel : Nat) (i : Int), 0 ≤ i → i + fuel = es.length →
      copyLoop (some h1.length) (some ps) es.length fuel i
          (h1 ++ [some (copiedUpTo es i.toNat)]) =
        .ok (h1 ++ [some (es.map some)]) := by
  have hps : ps < h1.length := getElem?_lt_length hsrc
  intro fuel
  induction fuel with
  | zero =>
    intro i h0 hi
    have hk : i.toNat = es.length := by omega
    have hn : ¬ i < (es.length : Int) := by omega
    simp [copyLoop, hn, hk, copiedUpTo]
  | succ fuel ih =>
    intro i h0 hi
    have hlt : i < (es.length : Int) := by omega
    have hk : i.toNat < es.length := by omega
    have hlen := copiedUpTo_length es i.toNat (le_of_lt hk)
    have hs1 : (h1 ++ [some (copiedUpTo es i.toNat)])[ps]? = some (some (es.map some)) := by
      rw [List.getElem?_append_left hps]
      exact hsrc
    have hd1 : (h1 ++ [some (copiedUpTo es i.toNat)])[h1.length]? =
        some (some (copiedUpTo es i.toNat)) := by
      simp
    have hset : (h1 ++ [some (copiedUpTo es i.toNat)]).set h1.length
        (some ((copiedUpTo es i.toNat).set i.toNat (some es[i.toNat]))) =
        h1 ++ [some (copiedUpTo es (i + 1).toNat)] := by
      rw [copiedUpTo_set es i.toNat hk, show (i + 1).toNat = i.toNat + 1 by omega]
      simp
    have hih := ih (i + 1) (by omega) (by push_cast at hi ⊢; omega)
    simp only [copyLoop, hlt, if_true, Heap.lvalue, hs1, hd1, List.length_map, hlen, h0,
      and_self, bind, Except.bind, Heap.load, Heap.store, List.getElem?_map,
      List.getElem?_eq_getElem hk, Option.map_some', hk, hset, hih]

theorem holds_nonempty_ptr {a : IntArray} {h : Heap} {es : List Int} (hh : Holds a h es)
    (hes : es ≠ []) : ∃ p, a.m_ptr = some p ∧ h[p]? = some (some (es.map some)) := by
  obtain ⟨_, hp⟩ := hh
  cases hptr : a.m_ptr with
  | none =>
    rw [hptr] at hp
    exact absurd hp hes
  | some p =>
    rw [hptr] at hp
    exact ⟨p, rfl, hp.2⟩

theorem assign_nonempty (m : Machine) (this source : Nat) (ds es : List Int)
    (hne : this ≠ source) (hd : Holds (m.objs this) m.heap ds)
    (hs : Holds (m.objs source) m.heap es) (hes : es ≠ [])
    (hsep : (m.objs this).m_ptr ≠ (m.objs source).m_ptr) :
    ∃ h1, m.heap.deleteArray (m.objs this).m_ptr = .ok h1 ∧ h1.length = m.heap.length ∧
      (∀ q, (m.objs this).m_ptr ≠ some q → h1[q]? = m.heap[q]?) ∧
      assign m this source = .ok ⟨h1 ++ [some (es.map some)],
        Function.update m.objs this ⟨some m.heap.length, (m.objs source).m_size⟩⟩ := by
  obtain ⟨h1, hdel, hlen, hframe⟩ := deleteArray_holds hd
  obtain ⟨ps, hps, hblk⟩ := holds_nonempty_ptr hs hes
  refine ⟨h1, hdel, hlen, hframe, ?_⟩
  have hsz : (m.objs source).m_size = (es.length : Int) := hs.1.symm
  have hpos : 0 < es.length := List.length_pos.2 hes
  have hblk1 : h1[ps]? = some (some (es.map some)) := by
    rw [hframe ps (by rw [← hps]; exact hsep)]
    exact hblk
  have hloop := copyLoop_spec h1 ps es hblk1 es.length 0 (le_refl 0) (by simp)
  have hpc : copiedUpTo es (0 : Int).toNat = List.replicate es.length none := by
    simp [copiedUpTo]
  rw [hpc, hlen] at hloop
  have hemp : (m.objs source).IsEmpty = false := by
    simp only [IntArray.IsEmpty, hsz]
    simpa using hes
  have hnneg : ¬ ((es.length : Int) < 0) := by omega
  simp only [assign, hne, if_false, hdel, hemp, hsz, hps, Heap.newUninit, hnneg, bind,
    Except.bind, Int.toNat_ofNat, hloop, hlen, Bool.not_false, if_true]

theorem assign_empty (m : Machine) (this source : Nat) (ds : List Int)
    (hne : this ≠ source) (hd : Holds (m.objs this) m.heap ds)
    (hs : (m.objs source).IsEmpty = true) :
    ∃ h1, m.heap.deleteArray (m.objs this).m_ptr = .ok h1 ∧
      assign m this source = .ok ⟨h1, m.objs⟩ := by
  obtain ⟨h1, hdel, _, _⟩ := deleteArray_holds hd
  refine ⟨h1, hdel, ?_⟩
  simp [assign, hne, hdel, hs, bind, Except.bind]

theorem ctorDefault_holds (h : Heap) : Holds ctorDefault h [] :=
  ⟨rfl, rfl⟩

theorem assign_nonempty_holds (m : Machine) (this source : Nat) (ds es : List Int)
    (hne : this ≠ source) (hd : Holds (m.objs this) m.heap ds)
    (hs : Holds (m.objs source) m.heap es) (hes : es ≠ [])
    (hsep : (m.objs this).m_ptr ≠ (m.objs source).m_ptr) :
    ∃ m1, assign m this source = .ok m1 ∧ Holds (m1.objs this) m1.heap es ∧
      Holds (m1.objs source) m1.heap es ∧
      (m1.objs this).m_ptr ≠ (m1.objs source).m_ptr ∧ m1.objs source = m.objs source := by
  obtain ⟨h1, _, hlen, hframe, hass⟩ := assign_nonempty m this source ds es hne hd hs hes hsep
  obtain ⟨ps, hps, hblk⟩ := holds_nonempty_ptr hs hes
  have hpslt : ps < h1.length := by
    rw [hlen]
    exact getElem?_lt_length hblk
  have hsrc : Function.update m.objs this ⟨some m.heap.length, (m.objs source).m_size⟩ source =
      m.objs source := Function.update_noteq (Ne.symm hne) _ _
  refine ⟨_, hass, ?_, ?_, ?_, hsrc⟩
  · simp only [Function.update_same]
    refine ⟨hs.1, hes, ?_⟩
    rw [← hlen]
    simp
  · simp only [hsrc]
    refine ⟨hs.1, ?_⟩
    rw [hps]
    refine ⟨hes, ?_⟩
    rw [List.getElem?_append_left hpslt, hframe ps (by rw [← hps]; exact hsep)]
    exact hblk
  · simp only [Function.update_same, hsrc, hps]
    intro he
    have := Option.some.inj he
    omega

theorem sample_holds : Holds sampleArray sampleHeap [10, 20, 30] :=
  ⟨rfl, List.cons_ne_nil _ _, rfl⟩

/-! ## Properties of the specification -/

/-- C1, on an input where the code departs from it.  A three-element destination
(name 0) is assigned a default-constructed source (name 1): `operator=` runs without an
error, releases the destination's block and leaves `m_size` and `m_ptr` as they were.
Afterwards the destination has `Size() == 3` while the source has `Size() == 0`, and
its pointer designates the released block, so that reading index 0 is undefined. -/
theorem assign_from_empty_keeps_size :
    ∃ h d m, ctorSized [] 3 = .ok (h, d) ∧
      assign (Machine.ofList h [d, ctorDefault]) 0 1 = .ok m ∧
      (m.objs 1).Size = 0 ∧ (m.objs 0).Size = 3 ∧
      (m.objs 0).m_ptr = some 0 ∧ m.heap = [none] ∧
      (m.objs 0).subscriptConst m.heap 0 = .error .UndefinedBehaviour :=
  ⟨_, _, _, rfl, rfl, rfl, rfl, rfl, rfl, rfl⟩

/-- C2, on an input where the code departs from it.  After a three-element destination
(name 0) is assigned a default-constructed source (name 1), index 0 still passes
`IsValidIndex` on the destination, and the mutable accessor and the write `d[0] = 7`
go through the pointer to the released block: the write is undefined, not a write to
storage that the destination owns. -/
theorem write_after_assign_from_empty :
    ∃ h d m, ctorSized [] 3 = .ok (h, d) ∧
      assign (Machine.ofList h [d, ctorDefault]) 0 1 = .ok m ∧
      (m.objs 0).IsValidIndex 0 = true ∧
      (m.objs 0).subscript m.heap 0 = .error .UndefinedBehaviour ∧
      (m.objs 0).writeAt m.heap 0 7 = .error .UndefinedBehaviour :=
  ⟨_, _, _, rfl, rfl, rfl, rfl, rfl⟩

/-- The bounds gate.  `IsValidIndex(i)` is true exactly when `0 <= i < Size()`; each of
the two accessors fails with `IndexOutOfBounds` exactly when `IsValidIndex(i)` is false;
and on an array that satisfies the representation invariant both accessors succeed at
every index that passes the check, the read-only one with the element at that index and
the mutable one with a reference to that cell of the array's block. -/
theorem bounds_gate (a : IntArray) (h : Heap) (i : Int) :
    (a.IsValidIndex i = true ↔ 0 ≤ i ∧ i < a.Size) ∧
    (a.subscriptConst h i = .error .IndexOutOfBounds ↔ a.IsValidIndex i = false) ∧
    (a.subscript h i = .error .IndexOutOfBounds ↔ a.IsValidIndex i = false) ∧
    (∀ es, Holds a h es → a.IsValidIndex i = true →
      (∃ v, es[i.toNat]? = some v ∧ a.subscriptConst h i = .ok v) ∧
      (∃ p, a.m_ptr = some p ∧ a.subscript h i = .ok ⟨p, i.toNat⟩)) := by
  refine ⟨isValidIndex_iff a i, subscriptConst_indexOutOfBounds_iff a h i,
    subscript_indexOutOfBounds_iff a h i, ?_⟩
  intro es hh hv
  obtain ⟨h0, h1⟩ := (isValidIndex_iff a i).1 hv
  refine ⟨subscriptConst_holds hh h0 h1, ?_⟩
  obtain ⟨p, hp, _, _, hlv⟩ := lvalue_holds hh h0 h1
  exact ⟨p, hp, by simp [subscript, hv, hlv]⟩

/-- The bounds gate on the array 10, 20, 30 at index 1. -/
theorem bounds_gate_witness :
    Holds sampleArray sampleHeap [10, 20, 30] ∧ sampleArray.IsValidIndex 1 = true ∧
      (∃ v, [10, 20, 30][(1 : Int).toNat]? = some v ∧
        sampleArray.subscriptConst sampleHeap 1 = .ok v) ∧
      (∃ p, sampleArray.m_ptr = some p ∧
        sampleArray.subscript sampleHeap 1 = .ok ⟨p, (1 : Int).toNat⟩) :=
  ⟨sample_holds, rfl, (bounds_gate sampleArray sampleHeap 1).2.2.2 _ sample_holds rfl⟩

/-- Write, then read.  On an array that satisfies the representation invariant, for
every valid index `i` and every `v`, the statement `a[i] = v` (mutable accessor) succeeds and the
read-only accessor then returns `v` at `i`. -/
theorem write_read_round_trip (a : IntArray) (h : Heap) (es : List Int) (i v : Int)
    (hh : Holds a h es) (hv : a.IsValidIndex i = true) :
    ∃ h1, a.writeAt h i v = .ok h1 ∧ a.subscriptConst h1 i = .ok v := by
  obtain ⟨h0, h1⟩ := (isValidIndex_iff a i).1 hv
  obtain ⟨p, _, hw, hh1⟩ := writeAt_holds hh h0 h1 v
  obtain ⟨w, hw1, hr⟩ := subscriptConst_holds hh1 h0 h1
  refine ⟨_, hw, ?_⟩
  have hlt : i.toNat < es.length := by
    have hlen := hh.1
    have h2 : i < a.m_size := h1
    omega
  rw [List.getElem?_set_self hlt] at hw1
  rw [hr, ← Option.some.inj hw1]

/-- Write, then read: writing 7 at index 1 of the array 10, 20, 30. -/
theorem write_read_round_trip_witness :
    Holds sampleArray sampleHeap [10, 20, 30] ∧ sampleArray.IsValidIndex 1 = true ∧
      ∃ h1, sampleArray.writeAt sampleHeap 1 7 = .ok h1 ∧
        sampleArray.subscriptConst h1 1 = .ok 7 :=
  ⟨sample_holds, rfl,
    write_read_round_trip sampleArray sampleHeap [10, 20, 30] 1 7 sample_holds rfl⟩

/-- C5.  For every `n > 0` and every free store, `IntArray(n)` succeeds and the
array it builds returns 0 from the read-only accessor at every `i` with `0 <= i < n`. -/
theorem zero_initialization (h : Heap) (n i : Int) (hn : 0 < n) (h0 : 0 ≤ i) (h1 : i < n) :
    ∃ h1 a, ctorSized h n = .ok (h1, a) ∧ a.subscriptConst h1 i = .ok 0 := by
  obtain ⟨hc, hh⟩ := ctorSized_pos h hn
  obtain ⟨v, hv, hr⟩ := subscriptConst_holds hh h0 h1
  refine ⟨_, _, hc, ?_⟩
  rw [hr]
  have hlt : i.toNat < n.toNat := by omega
  simp only [List.getElem?_replicate, hlt, if_true] at hv
  rw [← Option.some.inj hv]

/-- Witness of C5: `IntArray(4)` read at index 2. -/
theorem zero_initialization_witness :
    (0 : Int) < 4 ∧ (0 : Int) ≤ 2 ∧ (2 : Int) < 4 ∧
      ∃ h1 a, ctorSized [] 4 = .ok (h1, a) ∧ a.subscriptConst h1 2 = .ok 0 :=
  ⟨by decide, by decide, by decide,
    zero_initialization [] 4 2 (by decide) (by decide) (by decide)⟩

/-- C6 as stated fails: `IntArray(-1)` yields no instance at all, hence none with
`Size() == 0` and `IsEmpty() == true`. -/
theorem ctorSized_negative_counterexample :
    ¬ ∃ h a, ctorSized [] (-1) = .ok (h, a) ∧ a.Size = 0 ∧ a.IsEmpty = true := by
  rintro ⟨h, a, hc, _⟩
  have he : ctorSized [] (-1) = .error .BadArrayNewLength := rfl
  rw [he] at hc
  cases hc

/-- C6, amended.  `IntArray(0)` allocates nothing and yields an instance with
`Size() == 0` and `IsEmpty() == true`; for every `n < 0` the constructor yields no
instance, because `new int[n]{}` throws `std::bad_array_new_length`. -/
theorem ctorSized_nonpositive (h : Heap) :
    (∃ a, ctorSized h 0 = .ok (h, a) ∧ a.Size = 0 ∧ a.IsEmpty = true) ∧
    ∀ n : Int, n < 0 → ctorSized h n = .error .BadArrayNewLength := by
  refine ⟨⟨{}, rfl, rfl, rfl⟩, ?_⟩
  intro n hn
  have h1 : n ≠ 0 := by omega
  simp [ctorSized, Heap.newZeroed, h1, hn, bind, Except.bind]

/-- Witness of the amended C6 at `n = -1`. -/
theorem ctorSized_nonpositive_witness :
    (-1 : Int) < 0 ∧ ctorSized [] (-1) = .error .BadArrayNewLength :=
  ⟨by decide, (ctorSized_nonpositive []).2 (-1) (by decide)⟩

/-- C7.  For an array that holds the elements `es`, `operator<<` appends to the stream
`[`, the decimal texts of the elements in index order separated by `, `, and `]`
followed by a newline; the default-constructed array gives `[]` and a newline, and an
array holding 10, 20, 30 gives `[10, 20, 30]` and a newline. -/
theorem render_format :
    (∀ (a : IntArray) (h : Heap) (es : List Int) (os : String), Holds a h es →
      render os a h = .ok (os ++ "[" ++ ", ".intercalate (es.map showInt) ++ "]\n")) ∧
    (∀ h : Heap, render "" ctorDefault h = .ok "[]\n") ∧
    (∀ (a : IntArray) (h : Heap), Holds a h [10, 20, 30] →
      render "" a h = .ok "[10, 20, 30]\n") := by
  refine ⟨fun a h es os hh => render_holds hh os, fun h => rfl, ?_⟩
  intro a h hh
  rw [render_holds hh ""]
  rfl

/-- Witness of C7 on the array 10, 20, 30. -/
theorem render_format_witness :
    Holds sampleArray sampleHeap [10, 20, 30] ∧
      render "" sampleArray sampleHeap = .ok "[10, 20, 30]\n" :=
  ⟨sample_holds, render_format.2.2 sampleArray sampleHeap sample_holds⟩

/-- C8.  `a = a` returns at once: the machine afterwards is the machine before, so the
size and the elements of `a` are unchanged and the free store is untouched (nothing is
released, nothing is allocated). -/
theorem self_assignment_noop (m : Machine) (a : Nat) : assign m a a = .ok m := by
  simp [assign]

/-- C9.  The default constructor gives an array with the null pointer, `Size() == 0`
and `IsEmpty() == true`; for every `n > 0` the sized constructor succeeds with an array
of `Size() == n` and `IsEmpty() == false`; and `IsEmpty()` is true exactly when
`Size() == 0`. -/
theorem construction_emptiness :
    (ctorDefault.m_ptr = none ∧ ctorDefault.Size = 0 ∧ ctorDefault.IsEmpty = true) ∧
    (∀ (h : Heap) (n : Int), 0 < n →
      ∃ h1 a, ctorSized h n = .ok (h1, a) ∧ a.Size = n ∧ a.IsEmpty = false) ∧
    (∀ a : IntArray, a.IsEmpty = true ↔ a.Size = 0) := by
  refine ⟨⟨rfl, rfl, rfl⟩, ?_, ?_⟩
  · intro h n hn
    refine ⟨_, _, (ctorSized_pos h hn).1, rfl, ?_⟩
    have h1 : n ≠ 0 := by omega
    simpa [IntArray.IsEmpty] using h1
  · intro a
    simp [IntArray.IsEmpty, Size]

/-- Witness of C9 at `n = 10`. -/
theorem construction_emptiness_witness :
    (0 : Int) < 10 ∧ ∃ h1 a, ctorSized [] 10 = .ok (h1, a) ∧ a.Size = 10 ∧ a.IsEmpty = false :=
  ⟨by decide, construction_emptiness.2.1 [] 10 (by decide)⟩

/-- C10.  The scenario runs without a fault: the array of 11 elements filled with
`index * 10` renders as `[0, 10, ..., 100]`; after `d = c; d[5] = 999;` the original
renders as before and the copy shows 999 at position 5; and index 12 fails with
`IndexOutOfBounds` on both arrays through either accessor. -/
theorem scenario_trace :
    scenario = .ok
      { filled := "[0, 10, 20, 30, 40, 50, 60, 70, 80, 90, 100]\n",
        original := "[0, 10, 20, 30, 40, 50, 60, 70, 80, 90, 100]\n",
        copy := "[0, 10, 20, 30, 40, 999, 60, 70, 80, 90, 100]\n",
        readC := .error .IndexOutOfBounds, readD := .error .IndexOutOfBounds,
        refC := .error .IndexOutOfBounds, refD := .error .IndexOutOfBounds } :=
  rfl

/-! ## Further lemmas on `operator=` -/

theorem twoArrays_holds_zero : Holds (twoArrays.objs 0) twoArrays.heap [1, 2] :=
  ⟨rfl, List.cons_ne_nil _ _, rfl⟩

theorem twoArrays_holds_one : Holds (twoArrays.objs 1) twoArrays.heap [10, 20, 30] :=
  ⟨rfl, List.cons_ne_nil _ _, rfl⟩

theorem twoArrays_separate :
    ∀ p, (twoArrays.objs 0).m_ptr = some p → (twoArrays.objs 1).m_ptr ≠ some p := by
  intro p hp hq
  have h0 : (twoArrays.objs 0).m_ptr = some 1 := rfl
  have h1 : (twoArrays.objs 1).m_ptr = some 0 := rfl
  rw [h0] at hp
  rw [h1] at hq
  have e1 := Option.some.inj hp
  have e2 := Option.some.inj hq
  omega

theorem holds_empty_ptr {a : IntArray} {h : Heap} (hh : Holds a h []) :
    a.m_ptr = none ∧ a.m_size = 0 := by
  obtain ⟨hlen, hp⟩ := hh
  refine ⟨?_, by simpa using hlen.symm⟩
  cases hptr : a.m_ptr with
  | none => rfl
  | some p =>
    rw [hptr] at hp
    exact absurd rfl hp.1

theorem holds_same_read {a b : IntArray} {h k : Heap} {es : List Int}
    (ha : Holds a h es) (hb : Holds b k es) {i : Int} (h0 : 0 ≤ i) (h1 : i < a.m_size) :
    ∃ v, a.subscriptConst h i = .ok v ∧ b.subscriptConst k i = .ok v := by
  have h2 : i < b.m_size := by
    have e1 := ha.1
    have e2 := hb.1
    omega
  obtain ⟨v, hv, hr⟩ := subscriptConst_holds ha h0 h1
  obtain ⟨w, hw, hr2⟩ := subscriptConst_holds hb h0 h2
  rw [hv] at hw
  rw [← Option.some.inj hw] at hr2
  exact ⟨v, hr, hr2⟩

theorem assign_source_kept (m : Machine) (this source : Nat) (ds es : List Int)
    (hne : this ≠ source) (hd : Holds (m.objs this) m.heap ds)
    (hs : Holds (m.objs source) m.heap es)
    (hsep : ∀ p, (m.objs this).m_ptr = some p → (m.objs source).m_ptr ≠ some p) :
    ∃ m1, assign m this source = .ok m1 ∧ m1.objs source = m.objs source ∧
      Holds (m1.objs source) m1.heap es := by
  by_cases hes : es = []
  · subst hes
    obtain ⟨hp, hz⟩ := holds_empty_ptr hs
    have hemp : (m.objs source).IsEmpty = true := by simp [IntArray.IsEmpty, hz]
    obtain ⟨h1, _, hass⟩ := assign_empty m this source ds hne hd hemp
    refine ⟨_, hass, rfl, ?_⟩
    refine ⟨hs.1, ?_⟩
    simp only [hp]
  · have hsep2 : (m.objs this).m_ptr ≠ (m.objs source).m_ptr := by
      obtain ⟨ps, hps, _⟩ := holds_nonempty_ptr hs hes
      intro he
      exact hsep ps (by rw [he, hps]) hps
    obtain ⟨m1, hass, _, hs1, _, hobj⟩ :=
      assign_nonempty_holds m this source ds es hne hd hs hes hsep2
    exact ⟨m1, hass, hobj, hs1⟩

/-! ## Properties of the specification, continued -/

/-- Assignment between arrays of any sizes.  For every non-empty source and every
distinct destination of any size, both satisfying the representation invariant on
separate blocks, `destination = source` raises no error and leaves the
destination with the source's `Size()` and, at every index below it, the value the
source had there. -/
theorem assign_resizes (m : Machine) (this source : Nat) (ds es : List Int)
    (hne : this ≠ source) (hd : Holds (m.objs this) m.heap ds)
    (hs : Holds (m.objs source) m.heap es) (hes : es ≠ [])
    (hsep : ∀ p, (m.objs this).m_ptr = some p → (m.objs source).m_ptr ≠ some p) :
    ∃ m1, assign m this source = .ok m1 ∧
      (m1.objs this).Size = (m.objs source).Size ∧ (m1.objs this).Size = es.length ∧
      ∀ i : Int, 0 ≤ i → i < (m.objs source).Size →
        ∃ v, (m.objs source).subscriptConst m.heap i = .ok v ∧
          (m1.objs this).subscriptConst m1.heap i = .ok v := by
  have hsep2 : (m.objs this).m_ptr ≠ (m.objs source).m_ptr := by
    obtain ⟨ps, hps, _⟩ := holds_nonempty_ptr hs hes
    intro he
    exact hsep ps (by rw [he, hps]) hps
  obtain ⟨m1, hass, hd1, _, _, _⟩ :=
    assign_nonempty_holds m this source ds es hne hd hs hes hsep2
  refine ⟨m1, hass, ?_, hd1.1.symm, ?_⟩
  · exact hd1.1.symm.trans hs.1
  · intro i h0 h1
    exact holds_same_read hs hd1 h0 h1

/-- Assignment of the array 10, 20, 30 to a two-element array. -/
theorem assign_resizes_witness :
    (0 : Nat) ≠ 1 ∧ Holds (twoArrays.objs 0) twoArrays.heap [1, 2] ∧
      Holds (twoArrays.objs 1) twoArrays.heap [10, 20, 30] ∧
      ∃ m1, assign twoArrays 0 1 = .ok m1 ∧
        (m1.objs 0).Size = (twoArrays.objs 1).Size ∧ (m1.objs 0).Size = 3 ∧
        ∀ i : Int, 0 ≤ i → i < (twoArrays.objs 1).Size →
          ∃ v, (twoArrays.objs 1).subscriptConst twoArrays.heap i = .ok v ∧
            (m1.objs 0).subscriptConst m1.heap i = .ok v :=
  ⟨by decide, twoArrays_holds_zero, twoArrays_holds_one,
    assign_resizes twoArrays 0 1 [1, 2] [10, 20, 30] (by decide) twoArrays_holds_zero
      twoArrays_holds_one (List.cons_ne_nil _ _) twoArrays_separate⟩

/-- C12.  For every array, in whatever state, and every index that fails the bounds
check, the read-only accessor, the mutable accessor and the statement `a[i] = v` end
with `IndexOutOfBounds`, whatever the free store holds; the machine after the failed
read and after the failed write is the machine before, and no value is returned for
the index (it is neither clamped nor wrapped). -/
theorem failed_access_atomic (m : Machine) (a : Nat) (i v : Int)
    (hv : (m.objs a).IsValidIndex i = false) :
    m.readStmt a i = (.error .IndexOutOfBounds, m) ∧
    m.writeStmt a i v = (.error .IndexOutOfBounds, m) ∧
    (∀ h : Heap, (m.objs a).subscriptConst h i = .error .IndexOutOfBounds ∧
      (m.objs a).subscript h i = .error .IndexOutOfBounds) := by
  have h1 : ∀ h : Heap, (m.objs a).subscriptConst h i = .error .IndexOutOfBounds := fun h =>
    (subscriptConst_indexOutOfBounds_iff _ h i).2 hv
  have h2 : ∀ h : Heap, (m.objs a).subscript h i = .error .IndexOutOfBounds := fun h =>
    (subscript_indexOutOfBounds_iff _ h i).2 hv
  refine ⟨?_, ?_, fun h => ⟨h1 h, h2 h⟩⟩
  · simp [Machine.readStmt, h1]
  · simp [Machine.writeStmt, writeAt, h2, bind, Except.bind]

/-- Witness of C12: index 3 of the array 10, 20, 30. -/
theorem failed_access_atomic_witness :
    (twoArrays.objs 1).IsValidIndex 3 = false ∧
      twoArrays.readStmt 1 3 = (.error .IndexOutOfBounds, twoArrays) ∧
      twoArrays.writeStmt 1 3 7 = (.error .IndexOutOfBounds, twoArrays) ∧
      (∀ h : Heap, (twoArrays.objs 1).subscriptConst h 3 = .error .IndexOutOfBounds ∧
        (twoArrays.objs 1).subscript h 3 = .error .IndexOutOfBounds) :=
  ⟨rfl, failed_access_atomic twoArrays 1 3 7 rfl⟩

/-- C13.  For every array and every index that fails the bounds check, both accessors
fail with one and the same failure value, whose description is exactly
`Index out of bounds.`; the handler of `main` prints it after `Exception: `. -/
theorem failure_description (a : IntArray) (h : Heap) (i : Int)
    (hv : a.IsValidIndex i = false) :
    ∃ e, a.subscriptConst h i = .error e ∧ a.subscript h i = .error e ∧
      e.what = some "Index out of bounds." ∧
      catchBlock e = some "Exception: Index out of bounds.\n" :=
  ⟨.IndexOutOfBounds, (subscriptConst_indexOutOfBounds_iff a h i).2 hv,
    (subscript_indexOutOfBounds_iff a h i).2 hv, rfl, rfl⟩

/-- Witness of C13: index 12 of the array 10, 20, 30. -/
theorem failure_description_witness :
    sampleArray.IsValidIndex 12 = false ∧
      ∃ e, sampleArray.subscriptConst sampleHeap 12 = .error e ∧
        sampleArray.subscript sampleHeap 12 = .error e ∧
        e.what = some "Index out of bounds." ∧
        catchBlock e = some "Exception: Index out of bounds.\n" :=
  ⟨rfl, failure_description sampleArray sampleHeap 12 rfl⟩

/-- C14 as stated fails: assigning the array 10, 20, 30 to a two-element array changes
the `Size()` of the destination from 2 to 3. -/
theorem size_changed_by_assign :
    ∃ m1, assign twoArrays 0 1 = .ok m1 ∧ (twoArrays.objs 0).Size = 2 ∧
      (m1.objs 0).Size = 3 ∧ (m1.objs 0).Size ≠ (twoArrays.objs 0).Size :=
  ⟨_, rfl, rfl, rfl, by decide⟩

/-- C14, amended.  Whatever the state of the instance, a read or a write at an index
that fails the bounds check and a self-assignment leave the machine, hence `Size()`, as
it was.  For an instance that satisfies the representation invariant, a write through
the mutable accessor at a valid index succeeds and leaves the objects, hence `Size()`,
as they were; `operator<<` succeeds and leaves the machine as it was; and assignment
from a distinct non-empty source that satisfies the invariant on a block of its own
succeeds and sets the destination's `Size()` to the source's. -/
theorem size_after_operations (m : Machine) (a : Nat) :
    (∀ i v, (m.objs a).IsValidIndex i = false →
      m.readStmt a i = (.error .IndexOutOfBounds, m) ∧
      m.writeStmt a i v = (.error .IndexOutOfBounds, m)) ∧
    assign m a a = .ok m ∧
    (∀ es, Holds (m.objs a) m.heap es →
      (∀ i v, (m.objs a).IsValidIndex i = true →
        ∃ h1, m.writeStmt a i v = (.ok (), ⟨h1, m.objs⟩) ∧
          ((m.writeStmt a i v).2.objs a).Size = (m.objs a).Size) ∧
      ((m.renderStmt a).2 = m ∧ ∃ s, (m.renderStmt a).1 = .ok s) ∧
      (∀ (src : Nat) (ss : List Int), a ≠ src → Holds (m.objs src) m.heap ss → ss ≠ [] →
        (∀ p, (m.objs a).m_ptr = some p → (m.objs src).m_ptr ≠ some p) →
        ∃ m1, assign m a src = .ok m1 ∧ (m1.objs a).Size = (m.objs src).Size)) := by
  refine ⟨?_, by simp [assign], ?_⟩
  · intro i v hv
    have h1 : ∀ h : Heap, (m.objs a).subscriptConst h i = .error .IndexOutOfBounds := fun h =>
      (subscriptConst_indexOutOfBounds_iff _ h i).2 hv
    have h2 : ∀ h : Heap, (m.objs a).subscript h i = .error .IndexOutOfBounds := fun h =>
      (subscript_indexOutOfBounds_iff _ h i).2 hv
    constructor
    · simp [Machine.readStmt, h1]
    · simp [Machine.writeStmt, writeAt, h2, bind, Except.bind]
  · intro es hh
    refine ⟨?_, ⟨rfl, _, render_holds hh ""⟩, ?_⟩
    · intro i v hv
      obtain ⟨h0, h1⟩ := (isValidIndex_iff _ i).1 hv
      obtain ⟨p, _, hw, _⟩ := writeAt_holds hh h0 h1 v
      have hstmt : m.writeStmt a i v =
          (.ok (), ⟨m.heap.set p (some ((es.set i.toNat v).map some)), m.objs⟩) := by
        simp [Machine.writeStmt, hw]
      exact ⟨_, hstmt, by rw [hstmt]⟩
    · intro src ss hne hs hss hsep
      have hsep2 : (m.objs a).m_ptr ≠ (m.objs src).m_ptr := by
        obtain ⟨ps, hps, _⟩ := holds_nonempty_ptr hs hss
        intro he
        exact hsep ps (by rw [he, hps]) hps
      obtain ⟨m1, hass, hd1, _, _, _⟩ :=
        assign_nonempty_holds m a src es ss hne hh hs hss hsep2
      exact ⟨m1, hass, hd1.1.symm.trans hs.1⟩

/-- Witness of the amended C14 on the two-element array of `twoArrays`: a failed
write at index 2, a write at index 1, and the assignment of the array 10, 20, 30. -/
theorem size_after_operations_witness :
    (twoArrays.objs 0).IsValidIndex 2 = false ∧
      Holds (twoArrays.objs 0) twoArrays.heap [1, 2] ∧
      (twoArrays.objs 0).IsValidIndex 1 = true ∧
      Holds (twoArrays.objs 1) twoArrays.heap [10, 20, 30] ∧
      twoArrays.writeStmt 0 2 7 = (.error .IndexOutOfBounds, twoArrays) ∧
      (∃ h1, twoArrays.writeStmt 0 1 7 = (.ok (), ⟨h1, twoArrays.objs⟩) ∧
        ((twoArrays.writeStmt 0 1 7).2.objs 0).Size = (twoArrays.objs 0).Size) ∧
      ∃ m1, assign twoArrays 0 1 = .ok m1 ∧ (m1.objs 0).Size = (twoArrays.objs 1).Size :=
  ⟨rfl, twoArrays_holds_zero, rfl, twoArrays_holds_one,
    ((size_after_operations twoArrays 0).1 2 7 rfl).2,
    ((size_after_operations twoArrays 0).2.2 [1, 2] twoArrays_holds_zero).1 1 7 rfl,
    ((size_after_operations twoArrays 0).2.2 [1, 2] twoArrays_holds_zero).2.2 1 [10, 20, 30]
      (by decide) twoArrays_holds_one (List.cons_ne_nil _ _) twoArrays_separate⟩

/-- C15, on an input where the code departs from it.  `IntArray(3)` satisfies the
invariant; once a default-constructed array is assigned to it, its `Size()` is still 3
while the block it points to has been released, so it holds no storage although its
size is not zero, and the representation invariant holds for no element list. -/
theorem invariant_lost_by_assign_from_empty :
    ∃ h d m, ctorSized [] 3 = .ok (h, d) ∧ Holds d h [0, 0, 0] ∧
      assign (Machine.ofList h [d, ctorDefault]) 0 1 = .ok m ∧
      (m.objs 0).Size ≠ 0 ∧ (m.objs 0).m_ptr = some 0 ∧ m.heap[0]? = some none ∧
      ¬ ∃ es, Holds (m.objs 0) m.heap es := by
  refine ⟨_, _, _, rfl, ⟨rfl, List.cons_ne_nil _ _, rfl⟩, rfl, by decide, rfl, rfl, ?_⟩
  rintro ⟨es, _, hp⟩
  have hblk := hp.2
  have hrel : ([none] : Heap)[0]? = some none := rfl
  exact absurd (hblk.symm.trans hrel) (by simp)

/-- Frame of a write.  On an array that satisfies the representation invariant with
elements `es`,
for every valid index `i` and every `v`, the statement `a[i] = v` succeeds, leaves the
objects (hence `Size()`) as they were, makes the elements `es` with `v` at position
`i`, and leaves the value read at every other valid index unchanged. -/
theorem write_frame (m : Machine) (a : Nat) (es : List Int) (i v : Int)
    (hh : Holds (m.objs a) m.heap es) (hv : (m.objs a).IsValidIndex i = true) :
    ∃ h1, m.writeStmt a i v = (.ok (), ⟨h1, m.objs⟩) ∧
      ((m.writeStmt a i v).2.objs a).Size = (m.objs a).Size ∧
      Holds (m.objs a) h1 (es.set i.toNat v) ∧
      ∀ j : Int, (m.objs a).IsValidIndex j = true → j ≠ i →
        ∃ w, (m.objs a).subscriptConst m.heap j = .ok w ∧
          (m.objs a).subscriptConst h1 j = .ok w := by
  obtain ⟨h0, h1⟩ := (isValidIndex_iff _ i).1 hv
  obtain ⟨p, _, hw, hh1⟩ := writeAt_holds hh h0 h1 v
  have hstmt : m.writeStmt a i v =
      (.ok (), ⟨m.heap.set p (some ((es.set i.toNat v).map some)), m.objs⟩) := by
    simp [Machine.writeStmt, hw]
  refine ⟨_, hstmt, by rw [hstmt], hh1, ?_⟩
  intro j hj hji
  obtain ⟨j0, j1⟩ := (isValidIndex_iff _ j).1 hj
  obtain ⟨w, hw1, hr1⟩ := subscriptConst_holds hh j0 j1
  obtain ⟨w2, hw2, hr2⟩ := subscriptConst_holds hh1 j0 j1
  have hne : i.toNat ≠ j.toNat := by omega
  rw [List.getElem?_set_ne hne, hw1] at hw2
  rw [← Option.some.inj hw2] at hr2
  exact ⟨w, hr1, hr2⟩

/-- Frame of writing 7 at index 1 of the array 10, 20, 30 of `twoArrays`. -/
theorem write_frame_witness :
    Holds (twoArrays.objs 1) twoArrays.heap [10, 20, 30] ∧
      (twoArrays.objs 1).IsValidIndex 1 = true ∧
      ∃ h1, twoArrays.writeStmt 1 1 7 = (.ok (), ⟨h1, twoArrays.objs⟩) ∧
        ((twoArrays.writeStmt 1 1 7).2.objs 1).Size = (twoArrays.objs 1).Size ∧
        Holds (twoArrays.objs 1) h1 ([10, 20, 30].set (1 : Int).toNat 7) ∧
        ∀ j : Int, (twoArrays.objs 1).IsValidIndex j = true → j ≠ 1 →
          ∃ w, (twoArrays.objs 1).subscriptConst twoArrays.heap j = .ok w ∧
            (twoArrays.objs 1).subscriptConst h1 j = .ok w :=
  ⟨twoArrays_holds_one, rfl,
    write_frame twoArrays 1 [10, 20, 30] 1 7 twoArrays_holds_one rfl⟩

/-- C17, on an input where the code departs from it.  `IntArray(3)` followed by the
assignment of a default-constructed array is reachable by the constructors and one
assignment; on it `operator<<` enters its loop (`Size()` is 3), the read `a[0]` passes
the bounds check and goes to the released block: the read is undefined, and no text
is defined for the array. -/
theorem render_after_assign_from_empty :
    ∃ h d m, ctorSized [] 3 = .ok (h, d) ∧
      assign (Machine.ofList h [d, ctorDefault]) 0 1 = .ok m ∧
      (m.objs 0).Size = 3 ∧ (m.objs 0).IsValidIndex 0 = true ∧
      (m.renderStmt 0).1 = .error .UndefinedBehaviour :=
  ⟨_, _, _, rfl, rfl, rfl, rfl, rfl⟩

/-- The source of an assignment.  For every destination and every distinct source that
satisfy the representation invariant on separate blocks,
`destination = source` succeeds and the source has afterwards the same `Size()` and,
at every valid index, the same value as before. -/
theorem assign_keeps_source (m : Machine) (this source : Nat) (ds es : List Int)
    (hne : this ≠ source) (hd : Holds (m.objs this) m.heap ds)
    (hs : Holds (m.objs source) m.heap es)
    (hsep : ∀ p, (m.objs this).m_ptr = some p → (m.objs source).m_ptr ≠ some p) :
    ∃ m1, assign m this source = .ok m1 ∧
      (m1.objs source).Size = (m.objs source).Size ∧
      ∀ i : Int, (m.objs source).IsValidIndex i = true →
        ∃ v, (m.objs source).subscriptConst m.heap i = .ok v ∧
          (m1.objs source).subscriptConst m1.heap i = .ok v := by
  obtain ⟨m1, hass, hobj, hs1⟩ := assign_source_kept m this source ds es hne hd hs hsep
  refine ⟨m1, hass, by rw [hobj], ?_⟩
  intro i hi
  obtain ⟨h0, h1⟩ := (isValidIndex_iff _ i).1 hi
  exact holds_same_read hs hs1 h0 h1

/-- The source 10, 20, 30 after its assignment to a two-element array. -/
theorem assign_keeps_source_witness :
    (0 : Nat) ≠ 1 ∧ Holds (twoArrays.objs 0) twoArrays.heap [1, 2] ∧
      Holds (twoArrays.objs 1) twoArrays.heap [10, 20, 30] ∧
      ∃ m1, assign twoArrays 0 1 = .ok m1 ∧
        (m1.objs 1).Size = (twoArrays.objs 1).Size ∧
        ∀ i : Int, (twoArrays.objs 1).IsValidIndex i = true →
          ∃ v, (twoArrays.objs 1).subscriptConst twoArrays.heap i = .ok v ∧
            (m1.objs 1).subscriptConst m1.heap i = .ok v :=
  ⟨by decide, twoArrays_holds_zero, twoArrays_holds_one,
    assign_keeps_source twoArrays 0 1 [1, 2] [10, 20, 30] (by decide) twoArrays_holds_zero
      twoArrays_holds_one twoArrays_separate⟩

/-! ## Arrays left with released storage by an assignment from an empty source -/

/-- C3, on an input where the code departs from it.  After `IntArray(3)` has been
assigned a default-constructed array, index 2 passes the bounds check (`0 <= 2 < Size()`),
yet neither accessor succeeds: both go through the pointer to the released block, which
is undefined (and is not `IndexOutOfBounds` either). -/
theorem accessors_after_assign_from_empty :
    ∃ h d m, ctorSized [] 3 = .ok (h, d) ∧
      assign (Machine.ofList h [d, ctorDefault]) 0 1 = .ok m ∧
      (m.objs 0).IsValidIndex 2 = true ∧ (0 ≤ (2 : Int) ∧ (2 : Int) < (m.objs 0).Size) ∧
      (m.objs 0).subscriptConst m.heap 2 = .error .UndefinedBehaviour ∧
      (m.objs 0).subscript m.heap 2 = .error .UndefinedBehaviour :=
  ⟨_, _, _, rfl, rfl, rfl, ⟨by decide, by decide⟩, rfl, rfl⟩

/-- C4, on an input where the code departs from it.  After `IntArray(3)` has been
assigned a default-constructed array, index 1 is valid, the statement `d[1] = 5` stores
through the pointer to the released block, which is undefined, and the read of `d[1]`
that follows is undefined as well: it does not return 5. -/
theorem round_trip_after_assign_from_empty :
    ∃ h d m, ctorSized [] 3 = .ok (h, d) ∧
      assign (Machine.ofList h [d, ctorDefault]) 0 1 = .ok m ∧
      (m.objs 0).IsValidIndex 1 = true ∧
      m.writeStmt 0 1 5 = (.error .UndefinedBehaviour, m) ∧
      ((m.writeStmt 0 1 5).2.readStmt 0 1).1 = .error .UndefinedBehaviour :=
  ⟨_, _, _, rfl, rfl, rfl, rfl, rfl⟩

/-- C11, on an input where the code departs from it.  The destination is `IntArray(3)`
after the assignment of a default-constructed array (size 3, block released); the
source is `IntArray(2)`, which satisfies the invariant on a block of its own.  The
assignment `d = s` begins with `delete[]` of the released block, which is undefined: it
does not end without an error with `Size() == 2`. -/
theorem assign_onto_released_destination :
    ∃ h d h2 s m, ctorSized [] 3 = .ok (h, d) ∧ ctorSized h 2 = .ok (h2, s) ∧
      assign (Machine.ofList h2 [d, ctorDefault, s]) 0 1 = .ok m ∧
      Holds (m.objs 2) m.heap [0, 0] ∧ (m.objs 2).Size = 2 ∧ (m.objs 0).Size = 3 ∧
      m.heap.deleteArray (m.objs 0).m_ptr = .error .UndefinedBehaviour ∧
      assign m 0 2 = .error .UndefinedBehaviour :=
  ⟨_, _, _, _, _, rfl, rfl, rfl, ⟨rfl, List.cons_ne_nil _ _, rfl⟩, rfl, rfl, rfl, rfl⟩

/-- C16, on an input where the code departs from it.  After `IntArray(2)` has been
assigned a default-constructed array, the indices 0 and 1 are both valid; the statement
`d[1] = 7` stores through the pointer to the released block, which is undefined, and the
value at the other valid index 0 cannot be read, before or after. -/
theorem write_frame_after_assign_from_empty :
    ∃ h d m, ctorSized [] 2 = .ok (h, d) ∧
      assign (Machine.ofList h [d, ctorDefault]) 0 1 = .ok m ∧
      (m.objs 0).IsValidIndex 0 = true ∧ (m.objs 0).IsValidIndex 1 = true ∧
      (m.writeStmt 0 1 7).1 = .error .UndefinedBehaviour ∧
      (m.readStmt 0 0).1 = .error .UndefinedBehaviour ∧
      ((m.writeStmt 0 1 7).2.readStmt 0 0).1 = .error .UndefinedBehaviour :=
  ⟨_, _, _, rfl, rfl, rfl, rfl, rfl, rfl, rfl⟩

/-- C18, on an input where the code departs from it.  With `d` an `IntArray(3)` that
has been assigned the default-constructed `e`, and `s` an `IntArray(2)`: the assignment
`d = e` made once more releases the released block again, and the assignment `s = d`
copies from the released block; both are undefined, so neither ends with its source as
it was. -/
theorem assign_with_released_array :
    ∃ h d h2 s m, ctorSized [] 3 = .ok (h, d) ∧ ctorSized h 2 = .ok (h2, s) ∧
      assign (Machine.ofList h2 [d, ctorDefault, s]) 0 1 = .ok m ∧
      (m.objs 1).Size = 0 ∧ (m.objs 0).Size = 3 ∧
      assign m 0 1 = .error .UndefinedBehaviour ∧
      assign m 2 0 = .error .UndefinedBehaviour :=
  ⟨_, _, _, _, _, rfl, rfl, rfl, rfl, rfl, rfl, rfl⟩

end IntArraySpec
